import Mathlib

/-!
Verification of the CARES control plane against its specification.

The development shallowly embeds the Go sources:

* `internal/registry/registry.go` — the node registry (`Node`, `AddNode`,
  `UpdateMetrics`, `GetNode`, `MarkDisconnected`, ...).  The Go
  `map[string]*Node` is modelled as an association list of `Node` records
  keyed by `Node.id`; the Go map's key uniqueness corresponds to
  first-match lookup and first-match in-place mutation.
* `internal/scheduler/scheduler.go` — `SelectNodeForExecution`.
* `internal/functions/registry.go` — the function registry together with
  its snapshot persistence (`SaveToFile` / `LoadFromFile`).  JSON
  marshalling of a slice of `Function` records is modelled as the
  identity on the record list: `SaveToFile` produces the sorted record
  list and `LoadFromFile` rebuilds the map from such a list.
* `internal/cluster/server.go` — `JoinCluster` and the `Heartbeat`
  stream handler, over an explicit server state (node registry plus the
  per-node command queues of the `listeners` map).
* the REST handlers `createFunction` and `handleInvokeFunction` of the
  api server, from the point where the function name and request fields
  have been decoded.

Go `float64` metrics are modelled as `ℚ` (the arithmetic the scheduler
performs — halving, addition, order comparison and the `-1` sentinel
test — is exact on the inputs of interest), and `time.Time` timestamps
as `ℤ`.
-/

/-- Status of a node, `registry.NodeStatus` (a Go string type whose
assigned values are exactly these three constants). -/
inductive NodeStatus where
  | Active
  | Disconnected
  | Joining
deriving DecidableEq, Repr

/-- A worker node, `registry.Node`. -/
structure Node where
  id : String
  address : String
  hostname : String
  status : NodeStatus
  cpuUsage : ℚ
  memoryUsage : ℚ
  lastSeen : ℤ
  joinedAt : ℤ
deriving DecidableEq, Repr

/-- The node registry contents, the Go `map[string]*Node` as an
association list keyed by `Node.id`. -/
abbrev NodeRegistry := List Node

/-- Go map assignment `nr.nodes[id] = node`: replace the (first, hence
unique in a map) entry with the same id, or append a new entry. -/
def insertNode : NodeRegistry → Node → NodeRegistry
  | [], n => [n]
  | m :: rest, n => if m.id = n.id then n :: rest else m :: insertNode rest n

/-- `NodeRegistry.AddNode`: insert or overwrite the entry for `id` with a
fresh record in status `Joining`, zero metrics, and both timestamps set
to the current time. -/
def addNode (reg : NodeRegistry) (id address hostname : String) (now : ℤ) : NodeRegistry :=
  insertNode reg
    { id := id, address := address, hostname := hostname, status := NodeStatus.Joining,
      cpuUsage := 0, memoryUsage := 0, lastSeen := now, joinedAt := now }

/-- `NodeRegistry.GetNode`: first entry with the given id (a copy), or
`none`. -/
def getNode (reg : NodeRegistry) (nodeID : String) : Option Node :=
  reg.find? (fun n => n.id = nodeID)

/-- `NodeRegistry.UpdateMetrics`: if the id is present, overwrite the
cpu and memory metrics with the supplied values (the source stores them
unchanged), refresh `last_seen`, set status `Active` and return `true`;
otherwise return `false` and leave the registry as it was. -/
def updateMetrics : NodeRegistry → String → ℚ → ℚ → ℤ → NodeRegistry × Bool
  | [], _, _, _, _ => ([], false)
  | n :: rest, nodeID, cpu, mem, now =>
      if n.id = nodeID then
        ({ n with cpuUsage := cpu, memoryUsage := mem, lastSeen := now,
                  status := NodeStatus.Active } :: rest, true)
      else
        let r := updateMetrics rest nodeID cpu mem now
        (n :: r.1, r.2)

/-- `NodeRegistry.MarkDisconnected`: if the id is present, set that
entry's status to `Disconnected` (touching nothing else) and return
`true`; otherwise return `false`. -/
def markDisconnected : NodeRegistry → String → NodeRegistry × Bool
  | [], _ => ([], false)
  | n :: rest, nodeID =>
      if n.id = nodeID then
        ({ n with status := NodeStatus.Disconnected } :: rest, true)
      else
        let r := markDisconnected rest nodeID
        (n :: r.1, r.2)

/-- The scheduler's cost model from `SelectNodeForExecution`:
`score = cpu_usage * 0.5 + memory_usage * 0.5`. -/
def score (n : Node) : ℚ := n.cpuUsage * (1 / 2) + n.memoryUsage * (1 / 2)

/-- The active-node filter of `SelectNodeForExecution` (the loop that
collects nodes whose status string equals `"Active"`). -/
def activeNodes (nodes : List Node) : List Node :=
  nodes.filter (fun n => n.status = NodeStatus.Active)

/-- The selection loop of `SelectNodeForExecution`: walk the active
candidates keeping `bestNode` and `lowestScore`, where `lowestScore`
starts at the sentinel `-1` and a candidate is taken whenever
`lowestScore == -1 || score < lowestScore`. -/
def selectLoop : List Node → Option Node → ℚ → Option Node × ℚ
  | [], best, lowest => (best, lowest)
  | n :: rest, best, lowest =>
      if lowest = -1 ∨ score n < lowest then selectLoop rest (some n) (score n)
      else selectLoop rest best lowest

/-- `Scheduler.SelectNodeForExecution` over a registry snapshot (the
list returned by `GetAllNodes`).  All three error returns — empty
snapshot, no active node, and the defensive `bestNode == nil` check —
are modelled as `none` (the spec's `NoCandidate`). -/
def selectNodeForExecution (nodes : List Node) : Option Node :=
  if nodes.isEmpty then none
  else
    let active := activeNodes nodes
    if active.isEmpty then none
    else
      match (selectLoop active none (-1)).1 with
      | none => none
      | some n => some n

/-- Specification-side definition for claim C1's tie-break clause: the
first element of the list attaining the minimal value of `f`. -/
def firstMinBy (f : Node → ℚ) : List Node → Option Node
  | [] => none
  | n :: rest =>
      match firstMinBy f rest with
      | none => some n
      | some m => if f n ≤ f m then some n else some m

structure Function where
  id : String
  name : String
  image : String
  description : String
  createdAt : ℤ
  status : String
deriving DecidableEq, Repr

def insertFunction : List Function → Function → List Function
  | [], f => [f]
  | g :: rest, f => if g.id = f.id then f :: rest else g :: insertFunction rest f

def addFunction (r : List Function) (name image description : String)
    (freshId : String) (now : ℤ) : List Function × Option Function :=
  if r.any (fun fn => fn.name = name) then (r, none)
  else
    let f : Function :=
      { id := freshId, name := name, image := image, description := description,
        createdAt := now, status := "active" }
    (insertFunction r f, some f)

def getFunctionByName (r : List Function) (name : String) : Option Function :=
  r.find? (fun fn => fn.name = name)

def removeFunction : List Function → String → List Function × Bool
  | [], _ => ([], false)
  | g :: rest, id =>
      if g.id = id then (rest, true)
      else
        let r := removeFunction rest id
        (g :: r.1, r.2)

def updateFunctionStatus : List Function → String → String → List Function × Bool
  | [], _, _ => ([], false)
  | g :: rest, id, st =>
      if g.id = id then ({ g with status := st } :: rest, true)
      else
        let r := updateFunctionStatus rest id st
        (g :: r.1, r.2)

def selPass : Function → List Function → Function × List Function
  | x, [] => (x, [])
  | x, y :: rest =>
      if y.createdAt < x.createdAt then
        let r := selPass y rest
        (r.1, x :: r.2)
      else
        let r := selPass x rest
        (r.1, y :: r.2)

/-- `Registry.GetAllFunctions` of the persistent function registry: a
copy of the stored records sorted by creation time ascending with the
source's index-swapping double loop (`selPass` is one outer-loop step,
holding the element at position `i` and swapping whenever a later
element was created earlier). -/
def getAllFunctions : List Function → List Function
  | [] => []
  | x :: rest => (selPass x rest).1 :: getAllFunctions (selPass x rest).2
termination_by l => l.length
decreasing_by
  have hlen : ∀ (x : Function) (l : List Function), (selPass x l).2.length = l.length := by
    intro x l
    induction l generalizing x with
    | nil => rfl
    | cons y r ih =>
      simp only [selPass]
      by_cases h : y.createdAt < x.createdAt
      · simp [h, ih]
      · simp [h, ih]
  simp [hlen, Nat.lt_succ_self]

def saveToFile (r : List Function) : List Function :=
  getAllFunctions r

def loadFromFile (data : List Function) : List Function :=
  data.foldl insertFunction []

structure FunctionRequest where
  name : String
  image : String
  description : String
deriving DecidableEq, Repr

def createFunction (r : List Function) (req : FunctionRequest)
    (freshId : String) (now : ℤ) : List Function × ℕ :=
  if req.name = "" then (r, 400)
  else if req.image = "" then (r, 400)
  else
    match addFunction r req.name req.image req.description freshId now with
    | (r2, some _) => (r2, 201)
    | (r2, none) => (r2, 409)

/-- States of the function registry reachable through the public surface:
the empty initial registry, `AddFunction`, `RemoveFunction`,
`UpdateFunctionStatus`, and `LoadFromFile` of an arbitrary decoded
snapshot array. -/
inductive Reachable : List Function → Prop where
  | empty : Reachable []
  | add (r : List Function) (name image description freshId : String) (now : ℤ) :
      Reachable r → Reachable (addFunction r name image description freshId now).1
  | remove (r : List Function) (id : String) :
      Reachable r → Reachable (removeFunction r id).1
  | updateStatus (r : List Function) (id st : String) :
      Reachable r → Reachable (updateFunctionStatus r id st).1
  | load (r : List Function) (fs : List Function) :
      Reachable r → Reachable (loadFromFile fs)

/-- Reachability as in `Reachable`, but restricted to loading snapshot
arrays whose records carry pairwise-distinct names (as any snapshot
written by `SaveToFile` does). -/
inductive ReachableOk : List Function → Prop where
  | empty : ReachableOk []
  | add (r : List Function) (name image description freshId : String) (now : ℤ) :
      ReachableOk r → ReachableOk (addFunction r name image description freshId now).1
  | remove (r : List Function) (id : String) :
      ReachableOk r → ReachableOk (removeFunction r id).1
  | updateStatus (r : List Function) (id st : String) :
      ReachableOk r → ReachableOk (updateFunctionStatus r id st).1
  | load (r : List Function) (fs : List Function) :
      ReachableOk r → (fs.map Function.name).Nodup → ReachableOk (loadFromFile fs)

structure FunctionResult where
  output : String
  success : Bool
  error : String
deriving DecidableEq, Repr

/-- `handleInvokeFunction` of the api server, from the point where the
function name has been extracted from the URL path.  The first result
component is the HTTP status written, the second records the
`ExecuteFunction` dispatch that was opened (worker node id and function
name), or `none` when no RPC was dispatched.  The outcome of the RPC
itself is external and passed in as `exec` (`none` models a transport
error). -/
def handleInvokeFunction (freg : List Function) (nreg : Option (List Node))
    (functionName : String) (exec : Node → Function → Option FunctionResult) :
    ℕ × Option (String × String) :=
  match getFunctionByName freg functionName with
  | none => (404, none)
  | some fn =>
    match nreg with
    | none => (503, none)
    | some nodes =>
      match selectNodeForExecution nodes with
      | none => (503, none)
      | some node =>
        match exec node fn with
        | none => (500, some (node.id, fn.name))
        | some result =>
          if result.success then (200, some (node.id, fn.name))
          else (500, some (node.id, fn.name))

/-- Placeholder for the wire message `OrchestratorCommand`, whose schema
the spec leaves opaque. -/
structure OrchestratorCommand where
  payload : String
deriving DecidableEq, Repr

/-- A per-node outbound command channel, `make(chan *OrchestratorCommand, 10)`:
a bounded buffer with its capacity and currently buffered commands. -/
structure CommandQueue where
  capacity : ℕ
  buffered : List OrchestratorCommand
deriving DecidableEq, Repr

/-- The `listeners` map of the gRPC server, node id to command channel. -/
abbrev Listeners := List (String × CommandQueue)

def insertListener : Listeners → String → CommandQueue → Listeners
  | [], id, q => [(id, q)]
  | (k, v) :: rest, id, q =>
      if k = id then (id, q) :: rest else (k, v) :: insertListener rest id q

def lookupListener : Listeners → String → Option CommandQueue
  | [], _ => none
  | (k, v) :: rest, id => if k = id then some v else lookupListener rest id

def removeListener : Listeners → String → Listeners
  | [], _ => []
  | (k, v) :: rest, id => if k = id then rest else (k, v) :: removeListener rest id

/-- The orchestrator-side gRPC `Server` state: the node registry plus
the `listeners` map. -/
structure Server where
  registry : NodeRegistry
  listeners : Listeners
deriving DecidableEq, Repr

structure Acknowledgement where
  success : Bool
  message : String
deriving DecidableEq, Repr

structure NodeInfo where
  nodeId : String
  address : String
  hostname : String
  timestamp : ℤ
deriving DecidableEq, Repr

/-- `Server.JoinCluster`: register the node via `AddNode` and create a
fresh command channel of capacity 10 for it, acknowledging with
`success = true` unconditionally. -/
def joinCluster (s : Server) (info : NodeInfo) (now : ℤ) : Server × Acknowledgement :=
  ({ registry := addNode s.registry info.nodeId info.address info.hostname now,
     listeners := insertListener s.listeners info.nodeId
       { capacity := 10, buffered := [] } },
   { success := true,
     message := "Welcome to cluster, node " ++ info.nodeId })

/-- The wire message `NodeMetrics` of the heartbeat stream. -/
structure NodeMetrics where
  nodeId : String
  cpuUsage : ℚ
  memoryUsage : ℚ
  timestamp : ℤ
  status : String
deriving DecidableEq, Repr

/-- How a heartbeat stream terminates: `recv` returning `io.EOF`, `recv`
returning another error, or the handler observing the cancelled stream
context at the top of its loop. -/
inductive StreamEnd where
  | eof
  | recvError
  | ctxCancel
deriving DecidableEq, Repr

/-- One iteration of the `Server.Heartbeat` receive loop on a delivered
metrics message: update the node's metrics in the registry and, if a
command is buffered on the node's channel, send (dequeue) one. -/
def heartbeatStep (s : Server) (m : NodeMetrics) (now : ℤ) : Server :=
  { registry := (updateMetrics s.registry m.nodeId m.cpuUsage m.memoryUsage now).1,
    listeners :=
      match lookupListener s.listeners m.nodeId with
      | none => s.listeners
      | some q =>
        match q.buffered with
        | [] => s.listeners
        | _ :: qrest => insertListener s.listeners m.nodeId { q with buffered := qrest } }

/-- The `nodeID` local of the stream handler after the loop: the id
carried by the last received message, or `""` when none arrived. -/
def lastNodeId (msgs : List NodeMetrics) : String :=
  msgs.foldl (fun _ m => m.nodeId) ""

/-- `Server.Heartbeat` as a function of the messages received before the
stream terminated and the way it terminated.  On `eof` or a receive
error the loop breaks and the handler runs its cleanup block (delete the
listener entry, mark the node `Disconnected`) provided `nodeID` is
non-empty; on a context cancellation observed at the top of the loop the
handler returns `ctx.Err()` immediately, skipping the cleanup block. -/
def heartbeat (s : Server) (msgs : List NodeMetrics) (ending : StreamEnd) (now : ℤ) :
    Server :=
  let s2 := msgs.foldl (fun acc m => heartbeatStep acc m now) s
  match ending with
  | StreamEnd.ctxCancel => s2
  | _ =>
    let nid := lastNodeId msgs
    if nid = "" then s2
    else { registry := (markDisconnected s2.registry nid).1,
           listeners := removeListener s2.listeners nid }

/-- Specification-side clamping of a percentage into the range 0 to 100,
as the spec's data-model invariant describes. -/
def clamp (x : ℚ) : ℚ := max 0 (min 100 x)

def cexA : Node :=
  { id := "nA", address := "addrA", hostname := "hostA",
    status := NodeStatus.Active, cpuUsage := -2, memoryUsage := 0,
    lastSeen := 0, joinedAt := 0 }

def cexB : Node :=
  { id := "nB", address := "addrB", hostname := "hostB",
    status := NodeStatus.Active, cpuUsage := 10, memoryUsage := 10,
    lastSeen := 0, joinedAt := 0 }

def wNodeC1 : Node :=
  { id := "n1", address := "a1", hostname := "h1",
    status := NodeStatus.Active, cpuUsage := 10, memoryUsage := 20,
    lastSeen := 0, joinedAt := 0 }

def wNodeC2 : Node :=
  { id := "n2", address := "a2", hostname := "h2",
    status := NodeStatus.Active, cpuUsage := 30, memoryUsage := 40,
    lastSeen := 0, joinedAt := 0 }

def wNodeC3cex : Node :=
  { id := "w3", address := "a3", hostname := "h3",
    status := NodeStatus.Joining, cpuUsage := 5, memoryUsage := 5,
    lastSeen := 0, joinedAt := 0 }

def wNodeC3 : Node :=
  { id := "w3b", address := "a3b", hostname := "h3b",
    status := NodeStatus.Joining, cpuUsage := 1, memoryUsage := 2,
    lastSeen := 0, joinedAt := 0 }

def wFnC5 : Function :=
  { id := "id5", name := "hello", image := "img", description := "",
    createdAt := 0, status := "active" }

def wFnC6a : Function :=
  { id := "a6", name := "f1", image := "i1", description := "",
    createdAt := 5, status := "active" }

def wFnC6b : Function :=
  { id := "b6", name := "f2", image := "i2", description := "",
    createdAt := 2, status := "inactive" }

def wFnC7 : Function :=
  { id := "c7", name := "g", image := "i", description := "",
    createdAt := 0, status := "active" }

def wFnC8 : Function :=
  { id := "c8", name := "hello8", image := "im8", description := "",
    createdAt := 0, status := "active" }

def wNodeC8 : Node :=
  { id := "n8", address := "a8", hostname := "h8",
    status := NodeStatus.Disconnected, cpuUsage := 0, memoryUsage := 0,
    lastSeen := 0, joinedAt := 0 }

def wNodeC9 : Node :=
  { id := "n9", address := "a9", hostname := "h9",
    status := NodeStatus.Active, cpuUsage := 50, memoryUsage := 60,
    lastSeen := 4, joinedAt := 2 }

def dupFnA : Function :=
  { id := "ida", name := "f", image := "img1", description := "",
    createdAt := 0, status := "active" }

def dupFnB : Function :=
  { id := "idb", name := "f", image := "img2", description := "",
    createdAt := 1, status := "active" }

def hbNode : Node :=
  { id := "w1", address := "addr1", hostname := "host1",
    status := NodeStatus.Joining, cpuUsage := 0, memoryUsage := 0,
    lastSeen := 0, joinedAt := 0 }

def hbServer : Server :=
  { registry := [hbNode],
    listeners := [("w1", { capacity := 10, buffered := [] })] }

def hbMsg : NodeMetrics :=
  { nodeId := "w1", cpuUsage := 10, memoryUsage := 10, timestamp := 1,
    status := "active" }

theorem firstMinBy_eq_none (f : Node → ℚ) (l : List Node) :
    firstMinBy f l = none ↔ l = [] := by
  cases l with
  | nil => simp [firstMinBy]
  | cons a rest =>
    simp only [firstMinBy]
    cases h : firstMinBy f rest with
    | none => simp
    | some m => by_cases hle : f a ≤ f m <;> simp [hle]

theorem firstMinBy_spec (f : Node → ℚ) (l : List Node) (a : Node) :
    ∃ m, firstMinBy f (a :: l) = some m ∧ m ∈ a :: l ∧ ∀ x ∈ a :: l, f m ≤ f x := by
  induction l generalizing a with
  | nil => exact ⟨a, by simp [firstMinBy], by simp, by simp⟩
  | cons b rest ih =>
    obtain ⟨m, hm, hmem, hle⟩ := ih b
    by_cases hab : f a ≤ f m
    · refine ⟨a, ?_, by simp, ?_⟩
      · simp [firstMinBy] at hm ⊢
        rw [hm]
        simp [hab]
      · intro x hx
        rcases List.mem_cons.mp hx with h | h
        · subst h; exact le_refl _
        · exact le_trans hab (hle x h)
    · refine ⟨m, ?_, List.mem_cons_of_mem _ hmem, ?_⟩
      · simp [firstMinBy] at hm ⊢
        rw [hm]
        simp [hab]
      · intro x hx
        rcases List.mem_cons.mp hx with h | h
        · subst h; exact le_of_lt (lt_of_not_le hab)
        · exact hle x h

theorem selectLoop_isSome (l : List Node) :
    ∀ (b : Node) (s : ℚ), ∃ n, (selectLoop l (some b) s).1 = some n := by
  induction l with
  | nil => intro b s; exact ⟨b, rfl⟩
  | cons a rest ih =>
    intro b s
    simp only [selectLoop]
    by_cases h : s = -1 ∨ score a < s
    · simp only [if_pos h]; exact ih a (score a)
    · simp only [if_neg h]; exact ih b s

theorem selectLoop_mem (l : List Node) :
    ∀ (b : Option Node) (s : ℚ) (n : Node), (selectLoop l b s).1 = some n →
      b = some n ∨ n ∈ l := by
  induction l with
  | nil => intro b s n h; exact Or.inl h
  | cons a rest ih =>
    intro b s n h
    simp only [selectLoop] at h
    by_cases hc : s = -1 ∨ score a < s
    · rw [if_pos hc] at h
      rcases ih (some a) (score a) n h with h1 | h1
      · exact Or.inr (by simp at h1; simp [h1])
      · exact Or.inr (List.mem_cons_of_mem _ h1)
    · rw [if_neg hc] at h
      rcases ih b s n h with h1 | h1
      · exact Or.inl h1
      · exact Or.inr (List.mem_cons_of_mem _ h1)

theorem firstMinBy_cons (f : Node → ℚ) (a : Node) (l : List Node) :
    firstMinBy f (a :: l) =
      match firstMinBy f l with
      | none => some a
      | some m => if f a ≤ f m then some a else some m := rfl

theorem selectLoop_first_min (l : List Node) :
    ∀ (b : Node), score b ≠ -1 → (∀ n ∈ l, score n ≠ -1) →
      (selectLoop l (some b) (score b)).1 = firstMinBy score (b :: l) := by
  induction l with
  | nil => intro b _ _; simp [selectLoop, firstMinBy]
  | cons a rest ih =>
    intro b hb hl
    have ha : score a ≠ -1 := hl a (by simp)
    have hrest : ∀ n ∈ rest, score n ≠ -1 := fun n hn => hl n (List.mem_cons_of_mem _ hn)
    simp only [selectLoop]
    by_cases hc : score a < score b
    · rw [if_pos (Or.inr hc), ih a ha hrest]
      obtain ⟨m, hm, _, hle⟩ := firstMinBy_spec score rest a
      have hmb : ¬ score b ≤ score m :=
        not_le_of_lt (lt_of_le_of_lt (hle a (by simp)) hc)
      rw [firstMinBy_cons score b (a :: rest), hm]
      simp [hmb]
    · have hcond : ¬ (score b = -1 ∨ score a < score b) := by
        intro h; rcases h with h | h
        · exact hb h
        · exact hc h
      rw [if_neg hcond, ih b hb hrest]
      have hba : score b ≤ score a := le_of_not_lt hc
      rw [firstMinBy_cons score b rest, firstMinBy_cons score b (a :: rest),
        firstMinBy_cons score a rest]
      cases hr : firstMinBy score rest with
      | none =>
        have : rest = [] := (firstMinBy_eq_none score rest).mp hr
        subst this
        simp [firstMinBy, hba]
      | some m =>
        by_cases ham : score a ≤ score m
        · have h2 : score b ≤ score m := le_trans hba ham
          simp [ham, hba, h2]
        · simp [ham]

theorem selectNodeForExecution_eq (nodes : List Node) :
    selectNodeForExecution nodes =
      if nodes.isEmpty then none
      else if (activeNodes nodes).isEmpty then none
      else (selectLoop (activeNodes nodes) none (-1)).1 := by
  unfold selectNodeForExecution
  by_cases h1 : nodes.isEmpty
  · simp [h1]
  · simp only [h1, if_false]
    by_cases h2 : (activeNodes nodes).isEmpty
    · simp [h2]
    · simp only [h2, if_false]
      cases (selectLoop (activeNodes nodes) none (-1)).1 <;> rfl

theorem select_none_of_no_active (nodes : List Node) (h : activeNodes nodes = []) :
    selectNodeForExecution nodes = none := by
  rw [selectNodeForExecution_eq]
  by_cases h1 : nodes.isEmpty
  · simp [h1]
  · simp [h1, h]

theorem updateMetrics_absent (reg : NodeRegistry) (id : String) (cpu mem : ℚ) (now : ℤ)
    (h : ∀ n ∈ reg, n.id ≠ id) :
    updateMetrics reg id cpu mem now = (reg, false) := by
  induction reg with
  | nil => rfl
  | cons n rest ih =>
    simp only [updateMetrics]
    rw [if_neg (h n (by simp)), ih (fun m hm => h m (List.mem_cons_of_mem _ hm))]

theorem updateMetrics_found (l₁ : NodeRegistry) (n : Node) (l₂ : NodeRegistry)
    (id : String) (cpu mem : ℚ) (now : ℤ)
    (h1 : ∀ m ∈ l₁, m.id ≠ id) (hn : n.id = id) :
    updateMetrics (l₁ ++ n :: l₂) id cpu mem now =
      (l₁ ++ { n with cpuUsage := cpu, memoryUsage := mem, lastSeen := now,
                      status := NodeStatus.Active } :: l₂, true) := by
  induction l₁ with
  | nil => simp only [List.nil_append, updateMetrics]; rw [if_pos hn]
  | cons m rest ih =>
    simp only [List.cons_append, updateMetrics]
    rw [if_neg (h1 m (by simp))]
    simp only [List.append_eq]
    rw [ih (fun x hx => h1 x (List.mem_cons_of_mem _ hx))]

theorem getNode_append (l₁ : NodeRegistry) (x : Node) (l₂ : NodeRegistry) (id : String)
    (h1 : ∀ m ∈ l₁, m.id ≠ id) (hx : x.id = id) :
    getNode (l₁ ++ x :: l₂) id = some x := by
  induction l₁ with
  | nil => simp [getNode, List.find?, hx]
  | cons m rest ih =>
    simp only [getNode, List.cons_append, List.find?]
    have : (decide (m.id = id)) = false := by
      simp [h1 m (by simp)]
    rw [this]
    exact ih (fun x hx => h1 x (List.mem_cons_of_mem _ hx))

theorem markDisconnected_absent (reg : NodeRegistry) (id : String)
    (h : ∀ n ∈ reg, n.id ≠ id) :
    markDisconnected reg id = (reg, false) := by
  induction reg with
  | nil => rfl
  | cons n rest ih =>
    simp only [markDisconnected]
    rw [if_neg (h n (by simp)), ih (fun m hm => h m (List.mem_cons_of_mem _ hm))]

theorem markDisconnected_found (l₁ : NodeRegistry) (n : Node) (l₂ : NodeRegistry)
    (id : String)
    (h1 : ∀ m ∈ l₁, m.id ≠ id) (hn : n.id = id) :
    markDisconnected (l₁ ++ n :: l₂) id =
      (l₁ ++ { n with status := NodeStatus.Disconnected } :: l₂, true) := by
  induction l₁ with
  | nil => simp only [List.nil_append, markDisconnected]; rw [if_pos hn]
  | cons m rest ih =>
    simp only [List.cons_append, markDisconnected]
    rw [if_neg (h1 m (by simp))]
    simp only [List.append_eq]
    rw [ih (fun x hx => h1 x (List.mem_cons_of_mem _ hx))]

theorem selPass_length (x : Function) (l : List Function) :
    (selPass x l).2.length = l.length := by
  induction l generalizing x with
  | nil => rfl
  | cons y rest ih =>
    simp only [selPass]
    by_cases h : y.createdAt < x.createdAt
    · simp [h, ih]
    · simp [h, ih]

theorem selPass_perm (x : Function) (l : List Function) :
    List.Perm (x :: l) ((selPass x l).1 :: (selPass x l).2) := by
  induction l generalizing x with
  | nil => rfl
  | cons y rest ih =>
    simp only [selPass]
    by_cases h : y.createdAt < x.createdAt
    · rw [if_pos h]
      exact ((ih y).cons x).trans (List.Perm.swap _ _ _)
    · rw [if_neg h]
      exact (List.Perm.swap _ _ _).trans (((ih x).cons y).trans (List.Perm.swap _ _ _))

theorem getAllFunctions_perm : ∀ l : List Function, List.Perm l (getAllFunctions l)
  | [] => by rw [getAllFunctions]
  | x :: rest => by
      rw [getAllFunctions]
      exact (selPass_perm x rest).trans
        ((getAllFunctions_perm (selPass x rest).2).cons (selPass x rest).1)
termination_by l => l.length
decreasing_by simp [selPass_length, Nat.lt_succ_self]

theorem insertFunction_of_fresh (l : List Function) (f : Function)
    (h : ∀ g ∈ l, g.id ≠ f.id) :
    insertFunction l f = l ++ [f] := by
  induction l with
  | nil => rfl
  | cons g rest ih =>
    simp only [insertFunction]
    rw [if_neg (h g (by simp)), ih (fun x hx => h x (List.mem_cons_of_mem _ hx))]
    rfl

theorem foldl_insertFunction_fresh :
    ∀ (fs acc : List Function), (((acc ++ fs).map Function.id).Nodup) →
      fs.foldl insertFunction acc = acc ++ fs := by
  intro fs
  induction fs with
  | nil => intro acc _; simp
  | cons f rest ih =>
    intro acc h
    have hfresh : ∀ g ∈ acc, g.id ≠ f.id := by
      intro g hg heq
      rw [List.map_append] at h
      have hdis := (List.nodup_append.mp h).2.2
      exact hdis (List.mem_map_of_mem Function.id hg) (by simp [heq])
    have hstep : insertFunction acc f = acc ++ [f] := insertFunction_of_fresh acc f hfresh
    simp only [List.foldl_cons, hstep]
    have hassoc : (acc ++ [f]) ++ rest = acc ++ f :: rest := by simp
    rw [ih (acc ++ [f]) (by rw [hassoc]; exact h), hassoc]

theorem loadFromFile_saveToFile (r : List Function)
    (h : (r.map Function.id).Nodup) :
    loadFromFile (saveToFile r) = getAllFunctions r := by
  have hperm : List.Perm (r.map Function.id) ((getAllFunctions r).map Function.id) :=
    (getAllFunctions_perm r).map Function.id
  have hnodup : ((getAllFunctions r).map Function.id).Nodup := hperm.nodup_iff.mp h
  unfold loadFromFile saveToFile
  have := foldl_insertFunction_fresh (getAllFunctions r) []
  simp only [List.nil_append] at this
  exact this hnodup

theorem mem_insertFunction_name (l : List Function) (f : Function) (x : String)
    (h : x ∈ (insertFunction l f).map Function.name) :
    x ∈ l.map Function.name ∨ x = f.name := by
  induction l with
  | nil =>
    simp [insertFunction] at h
    exact Or.inr h
  | cons g rest ih =>
    simp only [insertFunction] at h
    by_cases hid : g.id = f.id
    · rw [if_pos hid] at h
      simp only [List.map_cons, List.mem_cons] at h
      rcases h with h | h
      · exact Or.inr h
      · exact Or.inl (by simp [h])
    · rw [if_neg hid] at h
      simp only [List.map_cons, List.mem_cons] at h
      rcases h with h | h
      · exact Or.inl (by simp [h])
      · rcases ih h with h2 | h2
        · exact Or.inl (List.mem_cons_of_mem _ h2)
        · exact Or.inr h2

theorem insertFunction_names_nodup (l : List Function) (f : Function)
    (h1 : (l.map Function.name).Nodup) (h2 : f.name ∉ l.map Function.name) :
    ((insertFunction l f).map Function.name).Nodup := by
  induction l with
  | nil => simp [insertFunction]
  | cons g rest ih =>
    simp only [List.map_cons, List.nodup_cons] at h1
    simp only [List.map_cons, List.mem_cons] at h2
    push_neg at h2
    simp only [insertFunction]
    by_cases hid : g.id = f.id
    · rw [if_pos hid]
      simp only [List.map_cons, List.nodup_cons]
      exact ⟨h2.2, h1.2⟩
    · rw [if_neg hid]
      simp only [List.map_cons, List.nodup_cons]
      refine ⟨?_, ih h1.2 h2.2⟩
      intro hmem
      rcases mem_insertFunction_name rest f g.name hmem with hc | hc
      · exact h1.1 hc
      · exact h2.1 hc.symm

theorem foldl_insertFunction_names_nodup :
    ∀ (fs acc : List Function), (acc.map Function.name).Nodup →
      ((fs.map Function.name).Nodup) →
      (∀ x ∈ acc.map Function.name, x ∉ fs.map Function.name) →
      ((fs.foldl insertFunction acc).map Function.name).Nodup := by
  intro fs
  induction fs with
  | nil => intro acc h _ _; simpa using h
  | cons f rest ih =>
    intro acc hacc hfs hdis
    simp only [List.map_cons, List.nodup_cons] at hfs
    have hfresh : f.name ∉ acc.map Function.name := by
      intro hmem
      exact hdis f.name hmem (by simp)
    simp only [List.foldl_cons]
    refine ih (insertFunction acc f) (insertFunction_names_nodup acc f hacc hfresh)
      hfs.2 ?_
    intro x hx hxr
    rcases mem_insertFunction_name acc f x hx with hc | hc
    · exact hdis x hc (List.mem_cons_of_mem _ hxr)
    · subst hc
      exact hfs.1 hxr

theorem removeFunction_sublist (l : List Function) (id : String) :
    ((removeFunction l id).1).Sublist l := by
  induction l with
  | nil => simp [removeFunction]
  | cons g rest ih =>
    simp only [removeFunction]
    by_cases h : g.id = id
    · rw [if_pos h]
      exact List.sublist_cons_self g rest
    · rw [if_neg h]
      exact ih.cons₂ g

theorem updateFunctionStatus_names (l : List Function) (id st : String) :
    ((updateFunctionStatus l id st).1).map Function.name = l.map Function.name := by
  induction l with
  | nil => rfl
  | cons g rest ih =>
    simp only [updateFunctionStatus]
    by_cases h : g.id = id
    · rw [if_pos h]
      simp
    · rw [if_neg h]
      simp [ih]

theorem getNode_insertNode (reg : NodeRegistry) (n : Node) :
    getNode (insertNode reg n) n.id = some n := by
  induction reg with
  | nil => simp [insertNode, getNode, List.find?]
  | cons m rest ih =>
    simp only [insertNode]
    by_cases h : m.id = n.id
    · rw [if_pos h]
      simp [getNode, List.find?]
    · rw [if_neg h]
      simp only [getNode, List.find?]
      have : (decide (m.id = n.id)) = false := by simp [h]
      rw [this]
      exact ih

theorem lookupListener_insertListener (ls : Listeners) (id : String) (q : CommandQueue) :
    lookupListener (insertListener ls id q) id = some q := by
  induction ls with
  | nil => simp [insertListener, lookupListener]
  | cons kv rest ih =>
    obtain ⟨k, v⟩ := kv
    simp only [insertListener]
    by_cases h : k = id
    · rw [if_pos h]
      simp [lookupListener]
    · rw [if_neg h]
      simp only [lookupListener]
      rw [if_neg h]
      exact ih

/-- Claim C1, as stated, is false on the code: with an Active node whose
metrics put its cost score at exactly the sentinel value -1 (cpu = -2,
mem = 0, reachable because metrics are stored unclamped) listed before
an Active node of score 10, the scheduler returns the second node, whose
score is not the minimum over the snapshot's Active nodes. -/
theorem scheduler_sentinel_counterexample :
    cexA.status = NodeStatus.Active ∧ cexA ∈ ([cexA, cexB] : List Node) ∧
    score cexA = -1 ∧ score cexB = 10 ∧
    selectNodeForExecution [cexA, cexB] = some cexB ∧
    ¬ (score cexB ≤ score cexA) := by
  refine ⟨rfl, by simp, ?_, ?_, ?_, ?_⟩
  · norm_num [score, cexA]
  · norm_num [score, cexB]
  · norm_num [selectNodeForExecution, activeNodes, selectLoop, cexA, cexB, score]
  · norm_num [score, cexA, cexB]

/-- Claim C1 (amended): for every registry snapshot whose Active set is
non-empty and in which no Active node has cost score exactly -1 (the
selection loop's sentinel value), the node returned by the scheduler is
the first Active candidate in snapshot order attaining the minimal cost
score `0.5 * cpu + 0.5 * mem`; in particular its score is the minimum of
the score over the snapshot's Active nodes. -/
theorem scheduler_select_min_score (nodes : List Node)
    (hne : activeNodes nodes ≠ [])
    (hs : ∀ n ∈ activeNodes nodes, score n ≠ -1) :
    selectNodeForExecution nodes = firstMinBy score (activeNodes nodes) ∧
    ∀ n m, selectNodeForExecution nodes = some n → m ∈ activeNodes nodes →
      score n ≤ score m := by
  have hnodes : ¬ nodes.isEmpty = true := by
    intro h
    exact hne (by simp [activeNodes, List.isEmpty_iff.mp h])
  have hactive : ¬ (activeNodes nodes).isEmpty = true :=
    fun h => hne (List.isEmpty_iff.mp h)
  obtain ⟨a, rest, har⟩ := List.exists_cons_of_ne_nil hne
  have hmain : selectNodeForExecution nodes = firstMinBy score (activeNodes nodes) := by
    rw [selectNodeForExecution_eq]
    simp only [hnodes, hactive, if_false]
    rw [har]
    simp only [selectLoop, eq_self_iff_true, true_or, if_true]
    exact selectLoop_first_min rest a (hs a (by rw [har]; simp))
      (fun n hn => hs n (by rw [har]; exact List.mem_cons_of_mem _ hn))
  refine ⟨hmain, fun n m hn hm => ?_⟩
  rw [hmain, har] at hn
  obtain ⟨m', hm', _, hle⟩ := firstMinBy_spec score rest a
  rw [hm'] at hn
  have : m' = n := by simpa using hn
  subst this
  exact hle m (by rw [har] at hm; exact hm)

/-- Instance of the amended claim C1 at a concrete one-node snapshot. -/
theorem scheduler_select_min_score_witness :
    selectNodeForExecution [wNodeC1] = firstMinBy score (activeNodes [wNodeC1]) :=
  (scheduler_select_min_score [wNodeC1]
    (by simp [activeNodes, wNodeC1])
    (by
      intro n hn
      simp [activeNodes, wNodeC1] at hn
      subst hn
      norm_num [score, wNodeC1])).1

/-- Claim C2: the scheduler's select operation returns either a node
with status Active drawn from the supplied snapshot, or NoCandidate
(modelled as `none`); and it returns NoCandidate exactly when the
snapshot contains no Active node. -/
theorem scheduler_select_sound (nodes : List Node) :
    (∀ n, selectNodeForExecution nodes = some n →
      n ∈ nodes ∧ n.status = NodeStatus.Active) ∧
    (selectNodeForExecution nodes = none ↔ activeNodes nodes = []) := by
  rw [selectNodeForExecution_eq]
  by_cases h1 : nodes.isEmpty
  · have : nodes = [] := List.isEmpty_iff.mp h1
    subst this
    simp [activeNodes]
  · simp only [h1, if_false]
    by_cases h2 : (activeNodes nodes).isEmpty
    · have h2' : activeNodes nodes = [] := List.isEmpty_iff.mp h2
      simp [h2, h2']
    · have h2' : activeNodes nodes ≠ [] := fun h => h2 (by simp [h])
      simp only [h2, if_false]
      obtain ⟨a, rest, har⟩ := List.exists_cons_of_ne_nil h2'
      constructor
      · intro n hn
        rcases selectLoop_mem (activeNodes nodes) none (-1) n hn with h | h
        · exact absurd h (by simp)
        · have := List.mem_filter.mp (by rw [activeNodes] at h; exact h)
          exact ⟨this.1, by simpa using this.2⟩
      · rw [har]
        simp only [selectLoop, eq_self_iff_true, true_or, if_true]
        obtain ⟨n, hn⟩ := selectLoop_isSome rest a (score a)
        rw [hn]
        simp

/-- Instance of claim C2 at a concrete one-node snapshot. -/
theorem scheduler_select_sound_witness :
    wNodeC2 ∈ [wNodeC2] ∧ wNodeC2.status = NodeStatus.Active :=
  (scheduler_select_sound [wNodeC2]).1 wNodeC2
    (by simp [selectNodeForExecution, activeNodes, selectLoop, score, wNodeC2])

/-- Claim C3, as stated, is false on the code: `UpdateMetrics` stores
out-of-range metrics unchanged instead of clamping them into the range 0
to 100.  Updating an existing node with cpu = 150 and mem = -5 makes
`GetNode` observe cpu = 150 and mem = -5, while the claim promises
clamp(150) = 100 and clamp(-5) = 0. -/
theorem update_metrics_no_clamp_counterexample :
    (updateMetrics [wNodeC3cex] "w3" 150 (-5) 7).2 = true ∧
    getNode (updateMetrics [wNodeC3cex] "w3" 150 (-5) 7).1 "w3" =
      some { wNodeC3cex with cpuUsage := 150, memoryUsage := -5, lastSeen := 7,
                             status := NodeStatus.Active } ∧
    clamp 150 = 100 ∧ clamp (-5) = 0 ∧
    ((150 : ℚ) ≠ clamp 150) ∧ ((-5 : ℚ) ≠ clamp (-5)) := by
  refine ⟨?_, ?_, ?_, ?_, ?_, ?_⟩
  · simp [updateMetrics, wNodeC3cex]
  · simp [updateMetrics, getNode, List.find?, wNodeC3cex]
  · norm_num [clamp]
  · norm_num [clamp]
  · norm_num [clamp]
  · norm_num [clamp]

/-- Claim C3 (amended): for a node id present in the registry,
`UpdateMetrics(id, cpu, mem)` returns true and afterwards `GetNode(id)`
observes status Active with cpu and mem equal to the supplied values
exactly as given (no clamping) and `last_seen` refreshed, all other
fields and entries unchanged; for an absent id it returns false and
leaves the registry unchanged. -/
theorem registry_update_metrics_spec (reg : NodeRegistry) (id : String)
    (cpu mem : ℚ) (now : ℤ) :
    ((∀ n ∈ reg, n.id ≠ id) → updateMetrics reg id cpu mem now = (reg, false)) ∧
    (∀ l₁ n l₂, reg = l₁ ++ n :: l₂ → (∀ m ∈ l₁, m.id ≠ id) → n.id = id →
      (updateMetrics reg id cpu mem now).2 = true ∧
      (updateMetrics reg id cpu mem now).1 =
        l₁ ++ { n with cpuUsage := cpu, memoryUsage := mem, lastSeen := now,
                       status := NodeStatus.Active } :: l₂ ∧
      getNode (updateMetrics reg id cpu mem now).1 id =
        some { n with cpuUsage := cpu, memoryUsage := mem, lastSeen := now,
                      status := NodeStatus.Active }) := by
  constructor
  · exact updateMetrics_absent reg id cpu mem now
  · intro l₁ n l₂ heq h1 hn
    subst heq
    rw [updateMetrics_found l₁ n l₂ id cpu mem now h1 hn]
    refine ⟨rfl, rfl, ?_⟩
    exact getNode_append l₁ _ l₂ id h1 hn

/-- Instance of the amended claim C3 at a concrete one-node registry. -/
theorem registry_update_metrics_spec_witness :
    (updateMetrics [wNodeC3] "w3b" 40 50 9).2 = true ∧
    (updateMetrics [wNodeC3] "w3b" 40 50 9).1 =
      [] ++ { wNodeC3 with cpuUsage := 40, memoryUsage := 50, lastSeen := 9,
                           status := NodeStatus.Active } :: [] ∧
    getNode (updateMetrics [wNodeC3] "w3b" 40 50 9).1 "w3b" =
      some { wNodeC3 with cpuUsage := 40, memoryUsage := 50, lastSeen := 9,
                          status := NodeStatus.Active } :=
  (registry_update_metrics_spec [wNodeC3] "w3b" 40 50 9).2 [] wNodeC3 []
    (by simp) (by simp) rfl

/-- Claim C9: `MarkDisconnected(id)` on a registry containing `id`
returns true and rewrites exactly that node's status to Disconnected,
leaving its other fields (id, address, hostname, cpu_usage,
memory_usage, last_seen, joined_at), every other entry, and membership
in the registry untouched; on an absent id it returns false and changes
nothing. -/
theorem registry_mark_disconnected_spec (reg : NodeRegistry) (id : String) :
    ((∀ n ∈ reg, n.id ≠ id) → markDisconnected reg id = (reg, false)) ∧
    (∀ l₁ n l₂, reg = l₁ ++ n :: l₂ → (∀ m ∈ l₁, m.id ≠ id) → n.id = id →
      markDisconnected reg id =
        (l₁ ++ { n with status := NodeStatus.Disconnected } :: l₂, true)) := by
  constructor
  · exact markDisconnected_absent reg id
  · intro l₁ n l₂ heq h1 hn
    subst heq
    exact markDisconnected_found l₁ n l₂ id h1 hn

/-- Instance of claim C9 at a concrete one-node registry. -/
theorem registry_mark_disconnected_spec_witness :
    markDisconnected [wNodeC9] "n9" =
      ([] ++ { wNodeC9 with status := NodeStatus.Disconnected } :: [], true) :=
  (registry_mark_disconnected_spec [wNodeC9] "n9").2 [] wNodeC9 []
    (by simp) (by simp) rfl

/-- Claim C5: when some stored function already bears the requested
name, `AddFunction` fails with a name-conflict error (modelled as
`none`) leaving the registry untouched, and the `createFunction` HTTP
handler maps that failure to a 409 response, the registry size
unchanged. -/
theorem function_add_name_conflict (r : List Function)
    (name image description freshId : String) (now : ℤ)
    (h : ∃ f ∈ r, f.name = name) :
    addFunction r name image description freshId now = (r, none) ∧
    (name ≠ "" → image ≠ "" →
      createFunction r ⟨name, image, description⟩ freshId now = (r, 409)) ∧
    (createFunction r ⟨name, image, description⟩ freshId now).1.length = r.length := by
  have hany : r.any (fun fn => fn.name = name) = true := by
    obtain ⟨f, hf, hfn⟩ := h
    exact List.any_eq_true.mpr ⟨f, hf, by simp [hfn]⟩
  have hadd : addFunction r name image description freshId now = (r, none) := by
    unfold addFunction
    rw [if_pos hany]
  refine ⟨hadd, ?_, ?_⟩
  · intro hn hi
    unfold createFunction
    rw [if_neg (by simpa using hn), if_neg (by simpa using hi), hadd]
  · unfold createFunction
    by_cases hn : name = ""
    · rw [if_pos (by simpa using hn)]
    · rw [if_neg (by simpa using hn)]
      by_cases hi : image = ""
      · rw [if_pos (by simpa using hi)]
      · rw [if_neg (by simpa using hi), hadd]

/-- Instance of claim C5 at a concrete one-function registry. -/
theorem function_add_name_conflict_witness :
    createFunction [wFnC5] ⟨"hello", "other", "d"⟩ "newid" 3 = ([wFnC5], 409) :=
  (function_add_name_conflict [wFnC5] "hello" "other" "d" "newid" 3
    ⟨wFnC5, by simp, by simp [wFnC5]⟩).2.1 (by simp) (by simp)

/-- Claim C6: saving the function registry to a snapshot and loading
that snapshot back yields the same set of functions, records compared
whole (id, name, image, description, created_at, status).  The
hypothesis that stored ids are pairwise distinct is the Go map's key
invariant. -/
theorem function_snapshot_roundtrip (r : List Function)
    (h : (r.map Function.id).Nodup) :
    ∀ f, f ∈ loadFromFile (saveToFile r) ↔ f ∈ r := by
  intro f
  rw [loadFromFile_saveToFile r h]
  exact ((getAllFunctions_perm r).mem_iff).symm

/-- Instance of claim C6 at a concrete two-function registry. -/
theorem function_snapshot_roundtrip_witness :
    wFnC6a ∈ loadFromFile (saveToFile [wFnC6a, wFnC6b]) ↔
      wFnC6a ∈ [wFnC6a, wFnC6b] :=
  function_snapshot_roundtrip [wFnC6a, wFnC6b] (by simp [wFnC6a, wFnC6b]) wFnC6a

/-- Claim C7, as stated, is false on the code: `LoadFromFile` performs
no name-uniqueness check, so loading a snapshot array holding two
records with distinct ids but the same name reaches a registry state
with a duplicated function name through the public surface. -/
theorem function_names_unique_counterexample :
    Reachable (loadFromFile [dupFnA, dupFnB]) ∧
    ¬ (((loadFromFile [dupFnA, dupFnB]).map Function.name).Nodup) :=
  ⟨Reachable.load [] [dupFnA, dupFnB] Reachable.empty, by
    simp [loadFromFile, List.foldl, insertFunction, dupFnA, dupFnB]⟩

/-- Claim C7 (amended): in every function-registry state reachable
through the public surface — add, remove, update_status, and startup
loads restricted to snapshot arrays whose records carry pairwise
distinct names, as any snapshot produced by `SaveToFile` does — function
names are unique. -/
theorem function_names_unique (r : List Function) (h : ReachableOk r) :
    (r.map Function.name).Nodup := by
  induction h with
  | empty => simp
  | add r name image description freshId now _ ih =>
    unfold addFunction
    by_cases hc : r.any (fun fn => fn.name = name) = true
    · rw [if_pos hc]
      exact ih
    · rw [if_neg hc]
      have hfresh : name ∉ r.map Function.name := by
        intro hmem
        apply hc
        obtain ⟨g, hg, hgn⟩ := List.mem_map.mp hmem
        exact List.any_eq_true.mpr ⟨g, hg, by simp [hgn]⟩
      exact insertFunction_names_nodup r _ ih hfresh
  | remove r id _ ih =>
    exact ih.sublist ((removeFunction_sublist r id).map Function.name)
  | updateStatus r id st _ ih =>
    rw [updateFunctionStatus_names]
    exact ih
  | load r fs _ hn _ =>
    exact foldl_insertFunction_names_nodup fs [] (by simp) hn (by simp)

/-- Instance of the amended claim C7 at a concrete loaded snapshot. -/
theorem function_names_unique_witness :
    ((loadFromFile [wFnC7]).map Function.name).Nodup :=
  function_names_unique (loadFromFile [wFnC7])
    (ReachableOk.load [] [wFnC7] ReachableOk.empty (by simp))

/-- Claim C8: for an invoke request whose function exists, when no node
registry is attached or the attached registry snapshot has no Active
node, the invocation pipeline replies with HTTP status 503 and
dispatches no ExecuteFunction RPC. -/
theorem invoke_no_active_worker (freg : List Function) (nreg : Option (List Node))
    (functionName : String) (exec : Node → Function → Option FunctionResult)
    (hf : getFunctionByName freg functionName ≠ none)
    (hn : ∀ nodes, nreg = some nodes → activeNodes nodes = []) :
    handleInvokeFunction freg nreg functionName exec = (503, none) := by
  cases hlk : getFunctionByName freg functionName with
  | none => exact absurd hlk hf
  | some fn =>
    cases nreg with
    | none => simp [handleInvokeFunction, hlk]
    | some nodes =>
      simp [handleInvokeFunction, hlk, select_none_of_no_active nodes (hn nodes rfl)]

/-- Instance of claim C8: one registered function, one Disconnected
worker, a transport-error oracle. -/
theorem invoke_no_active_worker_witness :
    handleInvokeFunction [wFnC8] (some [wNodeC8]) "hello8" (fun _ _ => none) =
      (503, none) :=
  invoke_no_active_worker [wFnC8] (some [wNodeC8]) "hello8" (fun _ _ => none)
    (by simp [getFunctionByName, List.find?, wFnC8])
    (by
      intro nodes h
      cases h
      simp [activeNodes, wNodeC8])

/-- Claim C10: `JoinCluster` registers the node — inserting or
overwriting the registry entry with status Joining, zeroed metrics and
fresh timestamps — creates a fresh command queue of capacity 10 for the
node id, and acknowledges with success = true: a join request is never
rejected. -/
theorem join_cluster_spec (s : Server) (info : NodeInfo) (now : ℤ) :
    (joinCluster s info now).2.success = true ∧
    getNode (joinCluster s info now).1.registry info.nodeId =
      some { id := info.nodeId, address := info.address, hostname := info.hostname,
             status := NodeStatus.Joining, cpuUsage := 0, memoryUsage := 0,
             lastSeen := now, joinedAt := now } ∧
    lookupListener (joinCluster s info now).1.listeners info.nodeId =
      some { capacity := 10, buffered := [] } := by
  refine ⟨rfl, ?_, ?_⟩
  · exact getNode_insertNode s.registry _
  · exact lookupListener_insertListener s.listeners info.nodeId _

/-- Claim C4 is violated by the cancellation exit path of the stream
handler: after one delivered metrics message, a context cancellation
observed at the top of the receive loop makes the handler return
without marking the node Disconnected and without dropping its command
queue (the node stays Active, the queue stays registered), whereas the
same trace terminated by EOF performs both cleanup steps. -/
theorem heartbeat_cancel_skips_cleanup :
    (getNode (heartbeat hbServer [hbMsg] StreamEnd.ctxCancel 1).registry "w1").map
        Node.status = some NodeStatus.Active ∧
    lookupListener (heartbeat hbServer [hbMsg] StreamEnd.ctxCancel 1).listeners "w1" =
      some { capacity := 10, buffered := [] } ∧
    (getNode (heartbeat hbServer [hbMsg] StreamEnd.eof 1).registry "w1").map
        Node.status = some NodeStatus.Disconnected ∧
    lookupListener (heartbeat hbServer [hbMsg] StreamEnd.eof 1).listeners "w1" = none := by
  refine ⟨?_, ?_, ?_, ?_⟩ <;>
    simp [heartbeat, heartbeatStep, lastNodeId, hbServer, hbNode, hbMsg,
      updateMetrics, markDisconnected, getNode, lookupListener, insertListener,
      removeListener, List.foldl, List.find?]
